import Mathlib

/-!
Verification of the semantic-release monorepo versioning scripts.

The development shallowly embeds the decision logic of
`scripts/semantic_release_workflow.py` (namespace `SemanticReleaseWorkflow`)
and, for the duplicate version-arithmetic routine, `scripts/bump.py`
(namespace `BumpScript`).  External collaborators (git log, git tag,
filesystem) are modelled as explicit inputs: the commit list per package
path, the list of existing tag names, and an association list holding the
version stored in each package's `pyproject.toml`.

Python built-ins used by the scripts (`str.strip`, `str.lower`, `int`,
`str.split`, substring membership, f-string decimal formatting and
`str.format` with `{name}`/`{version}` fields) are modelled for ASCII input
by the helper functions below.
-/

set_option autoImplicit false

/-- Models membership of a character in the ASCII part of the whitespace set
stripped by Python `str.strip()` and accepted around `int()` literals. -/
def isPyWS (c : Char) : Bool :=
  c = ' ' ∨ c = '\t' ∨ c = '\n' ∨ c = '\r' ∨ c = '\x0b' ∨ c = '\x0c'

/-- Models Python `str.strip()` on a character list: drop whitespace from
both ends. -/
def pyStripL (l : List Char) : List Char :=
  ((l.dropWhile isPyWS).reverse.dropWhile isPyWS).reverse

/-- Models Python `str.lower()` on one character, for ASCII: map `A`..`Z`
(code points 65..90) to `a`..`z` by adding 32. -/
def pyLowerChar (c : Char) : Char :=
  if 65 ≤ c.toNat ∧ c.toNat ≤ 90 then Char.ofNat (c.toNat + 32) else c

/-- Models Python `str.lower()` on a character list. -/
def pyLowerL (l : List Char) : List Char := l.map pyLowerChar

/-- The decimal digit character for `n < 10` (code point `48 + n`). -/
def digitChar (n : Nat) : Char := Char.ofNat (48 + n)

/-- The numeric value of a decimal digit character. -/
def digitVal (c : Char) : Nat := c.toNat - 48

/-- Fuel-driven decimal printer: pushes the digits of `n` (most significant
first) in front of `acc`.  `natStrL` supplies fuel `n + 1`, which always
suffices since the recursion divides `n` by 10. -/
def natDecimalAux : Nat → Nat → List Char → List Char
  | 0, _, acc => acc
  | fuel + 1, n, acc =>
    if n < 10 then digitChar n :: acc
    else natDecimalAux fuel (n / 10) (digitChar (n % 10) :: acc)

/-- The decimal numeral of `n`, as produced by Python `str(n)` for `n ≥ 0`. -/
def natStrL (n : Nat) : List Char := natDecimalAux (n + 1) n []

/-- Python `str(n)` for a natural number, as a `String`. -/
def natStr (n : Nat) : String := ⟨natStrL n⟩

/-- Models Python `str(i)` on an arbitrary integer (f-string formatting of
the version components). -/
def intStr (i : Int) : String := if i < 0 then "-" ++ natStr i.natAbs else natStr i.natAbs

/-- Digit-run scanner of Python `int()`: consumes decimal digits, allowing a
single underscore between two digits, accumulating the value.  Rejects a
trailing underscore, a doubled underscore, or any non-digit. -/
def pyDigitsGo : Nat → List Char → Option Nat
  | acc, [] => some acc
  | acc, c :: rest =>
    if c = '_' then
      match rest with
      | c2 :: rest2 => if c2.isDigit then pyDigitsGo (acc * 10 + digitVal c2) rest2 else none
      | [] => none
    else if c.isDigit then pyDigitsGo (acc * 10 + digitVal c) rest
    else none

/-- The unsigned-numeral part of Python `int()`: nonempty, must start with a
digit. -/
def pyIntDigits (l : List Char) : Option Nat :=
  match l with
  | [] => none
  | c :: rest => if c.isDigit then pyDigitsGo (digitVal c) rest else none

/-- Models Python `int(s)` on an ASCII string: strip whitespace, optional
single sign, decimal digits with optional single underscores between
digits.  `none` models the `ValueError` raised on malformed input. -/
def pyIntL (l : List Char) : Option Int :=
  match pyStripL l with
  | [] => none
  | c :: rest =>
    if c = '-' then (pyIntDigits rest).map (fun n => -(n : Int))
    else if c = '+' then (pyIntDigits rest).map (fun n => (n : Int))
    else (pyIntDigits (c :: rest)).map (fun n => (n : Int))

/-- Models Python `s.split(".")`: split at every `.`; the result always has
one more part than there are dots, and `"".split(".") = [""]`. -/
def pySplitOnDot : List Char → List (List Char)
  | [] => [[]]
  | c :: rest =>
    if c = '.' then [] :: pySplitOnDot rest
    else
      match pySplitOnDot rest with
      | h :: t => (c :: h) :: t
      | [] => [[c]]

/-- Models Python substring membership `needle in hay`. -/
def containsSub (hay needle : List Char) : Bool :=
  match hay with
  | [] => needle.isEmpty
  | c :: t => needle.isPrefixOf (c :: t) || containsSub t needle

/-- Models `major, minor, patch = map(int, current_version.split("."))`
(line 166): exactly three dot-separated parts, each a valid `int()`
literal; `none` models the `ValueError` otherwise (wrong part count or a
malformed part — either way the unpacking line raises). -/
def parseThree (s : String) : Option (Int × Int × Int) :=
  match (pySplitOnDot s.data).map pyIntL with
  | [some x, some y, some z] => some (x, y, z)
  | _ => none

/-- Version string rebuilt by the f-string
`f"{major}.{minor}.{patch}"` (line 180). -/
def renderVerI (x y z : Int) : String :=
  intStr x ++ "." ++ intStr y ++ "." ++ intStr z

/-- Canonical version string of a triple of naturals, as produced by the
scripts' f-strings on non-negative components. -/
def renderN (a b c : Nat) : String := natStr a ++ "." ++ natStr b ++ "." ++ natStr c

namespace SemanticReleaseWorkflow

/-- Normalisation performed by `_parse_conventional_commit`
(`semantic_release_workflow.py` line 109): `commit_message.strip().lower()`. -/
def normalizeMsg (m : String) : List Char := pyLowerL (pyStripL m.data)

/-- Models `message.split("\n")[0]` (line 116): the characters before the
first newline. -/
def firstLineL (l : List Char) : List Char := l.takeWhile (fun c => c ≠ '\n')

/-- Models Python `\w` for ASCII input: letters, digits and underscore. -/
def isWordChar (c : Char) : Bool := c.isAlpha ∨ c.isDigit ∨ c = '_'

/-- Decides whether the regex fragment `[^\)\]]*(?:\)|\])?:` matches a
prefix of `l`: some run of characters containing no `)` or `]`, then
optionally one `)` or `]`, then `:`.  Scanning, this holds exactly when the
first occurrence among `:`, `)`, `]` in `l` is a `:`, or is a `)`/`]`
immediately followed by `:`. -/
def matchesRest : List Char → Bool
  | [] => false
  | c :: rest =>
    if c = ':' then true
    else if c = ')' ∨ c = ']' then
      match rest with
      | c2 :: _ => c2 = ':'
      | [] => false
    else matchesRest rest

/-- Models `re.match(r"^(\w+)(?:\(|\[)?[^\)\]]*(?:\)|\])?:", line)` (line
117), returning the captured group 1.  Backtracking analysis: the greedy
`\w+` first tries the maximal word-character prefix `w`; shortening `\w+`
by one frees a word character, which is neither `(`, `[`, `)`, `]` nor `:`
and is therefore absorbed by `[^\)\]]*` with no effect on whether the rest
matches, and likewise consuming or not consuming an optional opening
bracket feeds the same class of character into `[^\)\]]*`.  Hence a match
exists iff the line starts with a word character and `matchesRest` holds on
the part after the maximal word prefix, and the captured group is always
that maximal prefix. -/
def reMatchHeader (line : List Char) : Option (List Char) :=
  let w := line.takeWhile isWordChar
  if w.isEmpty then none
  else if matchesRest (line.dropWhile isWordChar) then some w else none

/-- Models the lookup `type_bump_map.get(commit_type, "patch")` (lines
122-127): `feat ↦ minor`, `fix ↦ patch`, any other key defaults to
`patch`. -/
def typeBumpMapGet (t : List Char) : Option String :=
  if t = "feat".data then some "minor"
  else if t = "fix".data then some "patch"
  else some "patch"

/-- Models `_parse_conventional_commit` (lines 104-130).  The body cannot
raise on string input, so the `except` branch returning `None` is dead and
is not modelled.  Note line 119: an unmatched first line yields `"patch"`
when the normalised message is nonempty and `None` when it is empty. -/
def parse_conventional_commit (commit_message : String) : Option String :=
  if containsSub (normalizeMsg commit_message) "breaking change".data then some "major"
  else
    match reMatchHeader (firstLineL (normalizeMsg commit_message)) with
    | none => if (normalizeMsg commit_message).isEmpty then none else some "patch"
    | some w => typeBumpMapGet (pyLowerL w)

/-- Models `_bump_version` (lines 146-183).  The surrounding
`try`/`except ValueError` prints and re-raises, so the failure behaviour is
exactly that of the parse; any `bump_type` other than the three known
strings (including Python `None`) returns the version unchanged. -/
def bump_version (current_version : String) (bump_type : String) : Except String String :=
  match parseThree current_version with
  | none => .error "ValueError"
  | some (major, minor, patch) =>
    if bump_type = "major" then .ok (renderVerI (major + 1) 0 0)
    else if bump_type = "minor" then .ok (renderVerI major (minor + 1) 0)
    else if bump_type = "patch" then .ok (renderVerI major minor (patch + 1))
    else .ok current_version

/-- Models `bump_priority.get(x, 0)` for the dict
`{"major": 3, "minor": 2, "patch": 1, None: 0}` (line 234); any other
string key falls to the default `0`. -/
def bumpPriority : Option String → Nat
  | none => 0
  | some s => if s = "major" then 3 else if s = "minor" then 2 else if s = "patch" then 1 else 0

/-- One iteration of the `for commit in package_commits` loop of
`determine_package_bump` (lines 237-242): keep the highest-priority
classification seen so far, replacing only on strictly greater priority.
`commit_bump and ...` is modelled by the `match`, since the classifier only
ever returns the truthy strings `"major"`/`"minor"`/`"patch"` or `None`. -/
def bumpFoldStep (highest : Option String) (commit : String) : Option String :=
  match parse_conventional_commit commit with
  | some cb => if bumpPriority (some cb) > bumpPriority highest then some cb else highest
  | none => highest

/-- Models `determine_package_bump` (lines 210-247) applied to the commit
list returned by `get_package_commits`: an empty list is skipped early
(line 230), otherwise the highest-priority classification wins.  The
`except` branch is unreachable for string input and is not modelled. -/
def determine_package_bump (package_commits : List String) : Option String :=
  if package_commits.isEmpty then none
  else package_commits.foldl bumpFoldStep none

/-- Fuel-driven interpreter of `str.format` restricted to the `{name}` and
`{version}` replacement fields, which are the only fields the scripts'
tag-format templates use.  Any other brace content is left verbatim (real
`str.format` would raise there; the scripts never do that).  Fuel
`length + 1` always suffices since every step consumes at least one
character. -/
def substTemplateF (name version : List Char) : Nat → List Char → List Char
  | 0, l => l
  | _ + 1, [] => []
  | fuel + 1, c :: rest =>
    if c = '\x7b' then
      if "name\x7d".data.isPrefixOf rest then
        name ++ substTemplateF name version fuel (rest.drop 5)
      else if "version\x7d".data.isPrefixOf rest then
        version ++ substTemplateF name version fuel (rest.drop 8)
      else c :: substTemplateF name version fuel rest
    else c :: substTemplateF name version fuel rest

/-- Models `tag_format.format(name=project_name, version=v)`. -/
def formatTemplate (tag_format name version : String) : String :=
  ⟨substTemplateF name.data version.data (tag_format.data.length + 1) tag_format.data⟩

/-- Models `str(semver.Version.parse(v))` (lines 288-289) for versions made
of exactly three dot-separated canonical decimal numerals (`0` or a
nonzero-leading digit string), on which parsing round-trips to the same
string.  `none` models the `ValueError` raised on anything else; versions
with pre-release or build parts are outside the model (the scripts only
ever pass `x.y.z` strings produced by `_bump_version`). -/
def canonNumeral (l : List Char) : Bool :=
  match l with
  | [] => false
  | c :: rest => (c = '0' && rest.isEmpty) || (('1' ≤ c && c ≤ '9') && rest.all Char.isDigit)

/-- See `canonNumeral`. -/
def semverCanon (v : String) : Option String :=
  match pySplitOnDot v.data with
  | [x, y, z] => if canonNumeral x && canonNumeral y && canonNumeral z then some v else none
  | _ => none

/-- Models `tag_exists` (lines 280-304): parse the version with `semver`
(raising on malformed input, modelled by `none`), build the tag name from
the template, and test membership in the `git tag --list` output `tags`. -/
def tag_exists (tags : List String) (tag_format name version : String) : Option Bool :=
  (semverCanon version).map (fun vs => decide ((formatTemplate tag_format name vs) ∈ tags))

/-- Models the `while self.tag_exists(...)` loop of
`update_package_versions` (lines 359-362), which patch-bumps until the tag
is free.  The source loop is unbounded; `fuel` counts the remaining
permitted iterations and `none` at fuel 0 means the loop has not finished
within that many iterations.  `none` also models an exception escaping the
loop body (malformed version in `semver` parse or `_bump_version`). -/
def findAvailableVersion (tags : List String) (tag_format name : String) :
    Nat → String → Option String
  | 0, _ => none
  | fuel + 1, v =>
    match tag_exists tags tag_format name v with
    | none => none
    | some false => some v
    | some true =>
      match bump_version v "patch" with
      | .error _ => none
      | .ok v2 => findAvailableVersion tags tag_format name fuel v2

/-- Static data of a discovered package: the `packages` dict key, the path
used to scope `git log`, `project.name`, and the
`tool.semantic_release.branches.main.tag_format` template. -/
structure Pkg where
  key : String
  path : String
  name : String
  tag_format : String
deriving DecidableEq, Repr

/-- Mutable external state touched by `update_package_versions`: the
version field stored in each package's `pyproject.toml` (keyed by the
`packages` dict key) and the repository's tag list.  In the source the
version is read from the manifest at discovery time into
`package_info["current_version"]` and written back during the update;
since each package is read exactly once per run and before its own write,
reading the store at processing time is observationally the same, and a
later run's re-discovery sees the previous run's write. -/
structure RepoState where
  versions : List (String × String)
  tags : List String
deriving DecidableEq, Repr

/-- One entry of the `updated_versions` dict (lines 389-393). -/
structure ReleaseResult where
  old_version : String
  new_version : String
  bump_type : String
deriving DecidableEq, Repr

/-- Association-list lookup (a model of reading the stored version). -/
def lookupAssoc : List (String × String) → String → Option String
  | [], _ => none
  | (k, v) :: rest, key => if k = key then some v else lookupAssoc rest key

/-- Association-list update (a model of writing `pyproject.toml`). -/
def setAssoc : List (String × String) → String → String → List (String × String)
  | [], key, v => [(key, v)]
  | (k, w) :: rest, key, v => if k = key then (key, v) :: rest else (k, w) :: setAssoc rest key v

/-- Models one iteration of the `for package_name, package_info` loop of
`update_package_versions` (lines 345-396): determine the bump from the
package's commits, bump the stored version, resolve tag conflicts, write
the version back, create the tag (skipping creation when it already
exists, line 323, but still recording the result), and return the
`ReleaseResult`.  Every exception inside the loop body is caught (lines
395-396), so a failing package yields `none` and leaves the state
unchanged. -/
def processPackage (fuel : Nat) (commits : String → List String) (st : RepoState) (p : Pkg) :
    RepoState × Option ReleaseResult :=
  match determine_package_bump (commits p.path) with
  | none => (st, none)
  | some bumpType =>
    let currentVersion := (lookupAssoc st.versions p.key).getD "0.0.0"
    match bump_version currentVersion bumpType with
    | .error _ => (st, none)
    | .ok v0 =>
      match findAvailableVersion st.tags p.tag_format p.name fuel v0 with
      | none => (st, none)
      | some v =>
        let tagName := formatTemplate p.tag_format p.name v
        let newTags := if tagName ∈ st.tags then st.tags else st.tags ++ [tagName]
        ({ versions := setAssoc st.versions p.key v, tags := newTags },
         some { old_version := currentVersion, new_version := v, bump_type := bumpType })

/-- Models `update_package_versions` (lines 336-398) over the discovered
package list, threading the repository state and collecting the
`updated_versions` entries in iteration order. -/
def update_package_versions (fuel : Nat) (commits : String → List String)
    (st : RepoState) (pkgs : List Pkg) : RepoState × List (String × ReleaseResult) :=
  match pkgs with
  | [] => (st, [])
  | p :: rest =>
    let step := processPackage fuel commits st p
    let recur := update_package_versions fuel commits step.1 rest
    match step.2 with
    | some res => (recur.1, (p.key, res) :: recur.2)
    | none => (recur.1, recur.2)

/-- The fields of one parsed `pyproject.toml` that discovery inspects:
`project.name`, `project.version` and the nested tag-format. `none` models
an absent field. -/
structure PyProject where
  name : Option String
  version : Option String
  tag_format : Option String
deriving DecidableEq, Repr

/-- Python truthiness of `d.get(...)` for a string field: `None` and the
empty string are falsy. -/
def truthyStr : Option String → Bool
  | none => false
  | some s => !s.isEmpty

/-- Models `_validate_pyproject` (lines 132-144): `all(required_fields)`
over `project.name`, `project.version` and the tag-format template. -/
def validate_pyproject (d : PyProject) : Bool :=
  truthyStr d.name && truthyStr d.version && truthyStr d.tag_format

/-- One discovered `packages` entry as far as the claims need it. -/
structure DiscoveredPackage where
  name : String
  current_version : String
  tag_format : String
deriving DecidableEq, Repr

/-- Models the body of the discovery loop of `_discover_packages` for one
manifest (lines 63-93): validate (a `ValueError` is caught and the package
skipped, modelled by `none`), then build the entry with
`pyproject_data["project"].get("version", "0.0.0")` (line 89). -/
def discoverPackageEntry (d : PyProject) : Option DiscoveredPackage :=
  if validate_pyproject d then
    some { name := d.name.getD "", current_version := d.version.getD "0.0.0",
           tag_format := d.tag_format.getD "" }
  else none

/-- Models `_discover_packages` (lines 43-100) over the candidate manifest
list: collect the entries that survive validation and raise
(`ValueError`, modelled by `.error`) when none do (lines 97-98). -/
def discover_packages (manifests : List PyProject) : Except String (List DiscoveredPackage) :=
  let ps := manifests.filterMap discoverPackageEntry
  if ps.isEmpty then .error "No valid packages discovered in the repository" else .ok ps

/-- Models `PackageVersionManager.__init__` (lines 13-41): raise
`FileNotFoundError` when the repository root does not exist (line 27,
before the `try`), otherwise catch any discovery error and fall back to an
empty package dict (lines 39-41). -/
def managerInit (repo_root_exists : Bool) (manifests : List PyProject) :
    Except String (List DiscoveredPackage) :=
  if repo_root_exists then
    .ok (match discover_packages manifests with
         | .ok ps => ps
         | .error _ => [])
  else .error "FileNotFoundError"

/-- Models the `__main__` block (lines 406-437) as far as the exit code is
concerned: exit 1 on wrong argument count (line 410); exit 1 when an
exception escapes the `try` block (line 437), which — since
`update_package_versions` catches every per-package exception and
`__init__` catches discovery errors — only happens when `__init__` raises
`FileNotFoundError`; exit 0 otherwise, whether or not any package was
updated or failed. -/
def mainExitCode (argc : Nat) (repo_root_exists : Bool) (manifests : List PyProject) : Nat :=
  if argc ≠ 3 then 1
  else
    match managerInit repo_root_exists manifests with
    | .error _ => 1
    | .ok _ => 0

end SemanticReleaseWorkflow

namespace BumpScript

/-- Models `_bump_version` of `scripts/bump.py` (lines 111-133): parse
`x.y.z` with `map(int, ...)` (the `ValueError` propagates), bump the
selected component, and re-render with an f-string; any other `bump_type`
returns the version unchanged. -/
def bump_version (current_version : String) (bump_type : String) : Except String String :=
  match parseThree current_version with
  | none => .error "ValueError"
  | some (major, minor, patch) =>
    if bump_type = "major" then .ok (renderVerI (major + 1) 0 0)
    else if bump_type = "minor" then .ok (renderVerI major (minor + 1) 0)
    else if bump_type = "patch" then .ok (renderVerI major minor (patch + 1))
    else .ok current_version

end BumpScript

/-! ### Lemmas about the decimal printer and the `int()` parser -/

theorem digitVal_digitChar (n : Nat) (h : n < 10) : digitVal (digitChar n) = n := by
  interval_cases n <;> decide

theorem isDigit_digitChar (n : Nat) (h : n < 10) : (digitChar n).isDigit = true := by
  interval_cases n <;> decide

/-- Joint characterisation of `natDecimalAux` under sufficient fuel: the
output is a nonempty digit string prepended to `acc`, folding it as a
base-10 numeral recovers `n`, and its leading digit is nonzero unless
`n = 0`. -/
theorem natDecimalAux_spec :
    ∀ (fuel n : Nat) (acc : List Char), n < fuel →
      ∃ ds, natDecimalAux fuel n acc = ds ++ acc ∧ ds ≠ [] ∧
        (∀ c ∈ ds, c.isDigit = true) ∧
        (∀ A : Nat, ds.foldl (fun a c => a * 10 + digitVal c) A = A * 10 ^ ds.length + n) ∧
        (n = 0 → ds = ['0']) ∧
        (1 ≤ n → ∃ c t, ds = c :: t ∧ '1' ≤ c ∧ c ≤ '9') := by
  intro fuel
  induction fuel with
  | zero => intro n acc h; omega
  | succ fuel ih =>
    intro n acc h
    by_cases h10 : n < 10
    · refine ⟨[digitChar n], by simp [natDecimalAux, h10], by simp, ?_, ?_, ?_, ?_⟩
      · intro c hc
        simp only [List.mem_singleton] at hc
        subst hc
        exact isDigit_digitChar n h10
      · intro A
        simp [digitVal_digitChar n h10]
      · intro h0; subst h0; rfl
      · intro h1
        refine ⟨digitChar n, [], rfl, ?_, ?_⟩ <;> (interval_cases n <;> decide)
    · have hdiv : n / 10 < n := Nat.div_lt_self (by omega) (by omega)
      have hrec : n / 10 < fuel := by omega
      obtain ⟨ds, hds, hne, hdig, hfold, _, h1⟩ :=
        ih (n / 10) (digitChar (n % 10) :: acc) hrec
      have hmod : n % 10 < 10 := Nat.mod_lt _ (by omega)
      refine ⟨ds ++ [digitChar (n % 10)], ?_, by simp, ?_, ?_, ?_, ?_⟩
      · simp [natDecimalAux, h10, hds]
      · intro c hc
        rcases List.mem_append.mp hc with hc | hc
        · exact hdig c hc
        · simp only [List.mem_singleton] at hc
          subst hc
          exact isDigit_digitChar _ hmod
      · intro A
        rw [List.foldl_append, hfold A]
        simp only [List.foldl_cons, List.foldl_nil, List.length_append, List.length_cons,
          List.length_nil, Nat.zero_add]
        rw [digitVal_digitChar _ hmod, pow_succ]
        have hdm : 10 * (n / 10) + n % 10 = n := Nat.div_add_mod n 10
        calc (A * 10 ^ ds.length + n / 10) * 10 + n % 10
            = A * (10 ^ ds.length * 10) + (10 * (n / 10) + n % 10) := by ring
          _ = A * (10 ^ ds.length * 10) + n := by rw [hdm]
      · intro h0; omega
      · intro _
        have : 1 ≤ n / 10 := Nat.le_div_iff_mul_le (by omega) |>.mpr (by omega)
        obtain ⟨c, t, heq, hc1, hc9⟩ := h1 this
        exact ⟨c, t ++ [digitChar (n % 10)], by rw [heq]; simp, hc1, hc9⟩

/-- Specialisation of `natDecimalAux_spec` to `natStrL`. -/
theorem natStrL_spec (n : Nat) :
    natStrL n ≠ [] ∧ (∀ c ∈ natStrL n, c.isDigit = true) ∧
      (∀ A : Nat, (natStrL n).foldl (fun a c => a * 10 + digitVal c) A
        = A * 10 ^ (natStrL n).length + n) ∧
      (n = 0 → natStrL n = ['0']) ∧
      (1 ≤ n → ∃ c t, natStrL n = c :: t ∧ '1' ≤ c ∧ c ≤ '9') := by
  obtain ⟨ds, hds, hne, hdig, hfold, h0, h1⟩ := natDecimalAux_spec (n + 1) n [] (by omega)
  have hval : natStrL n = ds := by rw [natStrL, hds, List.append_nil]
  rw [hval]
  exact ⟨hne, hdig, hfold, h0, h1⟩

theorem pyDigitsGo_cons (acc : Nat) (c : Char) (t : List Char) :
    pyDigitsGo acc (c :: t)
      = if c = '_' then
          (match t with
           | c2 :: rest2 =>
             if c2.isDigit then pyDigitsGo (acc * 10 + digitVal c2) rest2 else none
           | [] => none)
        else if c.isDigit then pyDigitsGo (acc * 10 + digitVal c) t else none := by
  rw [pyDigitsGo.eq_def]

theorem pyDigitsGo_digits (l : List Char) (h : ∀ c ∈ l, c.isDigit = true) :
    ∀ acc : Nat, pyDigitsGo acc l = some (l.foldl (fun a c => a * 10 + digitVal c) acc) := by
  induction l with
  | nil => intro acc; rfl
  | cons c t ih =>
    intro acc
    have hc : c.isDigit = true := h c (by simp)
    have hcu : ¬ c = '_' := by intro he; subst he; exact absurd hc (by decide)
    rw [pyDigitsGo_cons, if_neg hcu, if_pos hc, List.foldl_cons]
    exact ih (fun d hd => h d (by simp [hd])) _

theorem pyIntDigits_natStrL (n : Nat) : pyIntDigits (natStrL n) = some n := by
  obtain ⟨hne, hdig, hfold, _, _⟩ := natStrL_spec n
  rcases hl : natStrL n with _ | ⟨c, t⟩
  · exact absurd hl hne
  · have hc : c.isDigit = true := hdig c (by rw [hl]; simp)
    have ht : ∀ d ∈ t, d.isDigit = true := fun d hd => hdig d (by rw [hl]; simp [hd])
    simp only [pyIntDigits, if_pos hc, pyDigitsGo_digits t ht]
    have h2 : t.foldl (fun a c => a * 10 + digitVal c) (digitVal c)
        = (c :: t).foldl (fun a c => a * 10 + digitVal c) 0 := by
      simp
    rw [h2, ← hl, hfold 0]
    simp

theorem dropWhile_eq_self_of_false (p : Char → Bool) (l : List Char)
    (h : ∀ c ∈ l, p c = false) : l.dropWhile p = l := by
  cases l with
  | nil => rfl
  | cons c t => simp [List.dropWhile_cons, h c (by simp)]

theorem pyStripL_eq_self (l : List Char) (h : ∀ c ∈ l, isPyWS c = false) : pyStripL l = l := by
  rw [pyStripL, dropWhile_eq_self_of_false _ _ h,
    dropWhile_eq_self_of_false _ _ (fun c hc => h c (List.mem_reverse.mp hc)),
    List.reverse_reverse]

theorem digit_not_ws (c : Char) (h : c.isDigit = true) : isPyWS c = false := by
  simp only [isPyWS, decide_eq_false_iff_not]
  rintro (rfl | rfl | rfl | rfl | rfl | rfl) <;> exact absurd h (by decide)

theorem digit_ne_minus (c : Char) (h : c.isDigit = true) : ¬ c = '-' := by
  rintro rfl; exact absurd h (by decide)

theorem digit_ne_plus (c : Char) (h : c.isDigit = true) : ¬ c = '+' := by
  rintro rfl; exact absurd h (by decide)

theorem digit_ne_dot (c : Char) (h : c.isDigit = true) : c ≠ '.' := by
  rintro rfl; exact absurd h (by decide)

theorem pyIntL_natStrL (n : Nat) : pyIntL (natStrL n) = some (n : Int) := by
  obtain ⟨hne, hdig, _, _, _⟩ := natStrL_spec n
  have hstrip : pyStripL (natStrL n) = natStrL n :=
    pyStripL_eq_self _ (fun c hc => digit_not_ws c (hdig c hc))
  rcases hl : natStrL n with _ | ⟨c, t⟩
  · exact absurd hl hne
  · have hc : c.isDigit = true := hdig c (by rw [hl]; simp)
    have hstrip2 : pyStripL (c :: t) = c :: t := by rw [← hl]; exact hstrip
    have hpid : pyIntDigits (c :: t) = some n := by rw [← hl]; exact pyIntDigits_natStrL n
    rw [pyIntL, hstrip2]
    simp only [if_neg (digit_ne_minus c hc), if_neg (digit_ne_plus c hc), hpid]
    rfl

/-! ### Lemmas about `split(".")` and the rendered version strings -/

theorem pySplitOnDot_no_dot (l : List Char) (h : ∀ c ∈ l, c ≠ '.') :
    pySplitOnDot l = [l] := by
  induction l with
  | nil => rfl
  | cons c t ih =>
    have hc : ¬ c = '.' := h c (by simp)
    simp [pySplitOnDot, hc, ih (fun d hd => h d (by simp [hd]))]

theorem pySplitOnDot_append (A R : List Char) (h : ∀ c ∈ A, c ≠ '.') :
    pySplitOnDot (A ++ '.' :: R) = A :: pySplitOnDot R := by
  induction A with
  | nil => simp [pySplitOnDot]
  | cons c t ih =>
    have hc : ¬ c = '.' := h c (by simp)
    have ih2 := ih (fun d hd => h d (by simp [hd]))
    simp [pySplitOnDot, hc, ih2]

theorem string_data_append (s t : String) : (s ++ t).data = s.data ++ t.data := rfl

theorem renderN_data (a b c : Nat) :
    (renderN a b c).data = natStrL a ++ '.' :: (natStrL b ++ '.' :: natStrL c) := by
  simp [renderN, string_data_append, natStr]

theorem natStrL_no_dot (n : Nat) : ∀ c ∈ natStrL n, c ≠ '.' :=
  fun c hc => digit_ne_dot c ((natStrL_spec n).2.1 c hc)

theorem parseThree_renderN (a b c : Nat) :
    parseThree (renderN a b c) = some ((a : Int), (b : Int), (c : Int)) := by
  rw [parseThree, renderN_data, pySplitOnDot_append _ _ (natStrL_no_dot a),
    pySplitOnDot_append _ _ (natStrL_no_dot b), pySplitOnDot_no_dot _ (natStrL_no_dot c)]
  simp [pyIntL_natStrL]

theorem canonNumeral_natStrL (n : Nat) :
    SemanticReleaseWorkflow.canonNumeral (natStrL n) = true := by
  obtain ⟨hne, hdig, _, h0, h1⟩ := natStrL_spec n
  by_cases hn : n = 0
  · subst hn; rw [h0 rfl]; decide
  · obtain ⟨c, t, heq, hc1, hc9⟩ := h1 (by omega)
    have ht : ∀ d ∈ t, d.isDigit = true := fun d hd => hdig d (by rw [heq]; simp [hd])
    rw [heq]
    simp only [SemanticReleaseWorkflow.canonNumeral, Bool.or_eq_true, Bool.and_eq_true,
      decide_eq_true_eq, List.all_eq_true]
    exact Or.inr ⟨⟨hc1, hc9⟩, ht⟩

theorem semverCanon_renderN (a b c : Nat) :
    SemanticReleaseWorkflow.semverCanon (renderN a b c) = some (renderN a b c) := by
  rw [SemanticReleaseWorkflow.semverCanon, renderN_data,
    pySplitOnDot_append _ _ (natStrL_no_dot a),
    pySplitOnDot_append _ _ (natStrL_no_dot b), pySplitOnDot_no_dot _ (natStrL_no_dot c)]
  simp [canonNumeral_natStrL]

theorem intStr_natCast (n : Nat) : intStr (n : Int) = natStr n := by
  simp [intStr, show ¬ ((n : Int) < 0) by omega]

theorem renderVerI_natCast (a b c : Nat) :
    renderVerI (a : Int) (b : Int) (c : Int) = renderN a b c := by
  simp [renderVerI, renderN, intStr_natCast]

theorem bump_patch_renderN (a b c : Nat) :
    SemanticReleaseWorkflow.bump_version (renderN a b c) "patch"
      = .ok (renderN a b (c + 1)) := by
  have hred : SemanticReleaseWorkflow.bump_version (renderN a b c) "patch"
      = .ok (renderVerI (a : Int) (b : Int) ((c : Int) + 1)) := by
    rw [SemanticReleaseWorkflow.bump_version, parseThree_renderN]
    rfl
  have hcast : ((c : Int) + 1) = ((c + 1 : Nat) : Int) := by push_cast; ring
  rw [hred, hcast, renderVerI_natCast]

/-! ### Step lemmas for the tag-resolution loop -/

theorem findAvailableVersion_free (tags : List String) (fmt name : String) (fuel : Nat)
    (v : String) (h : SemanticReleaseWorkflow.tag_exists tags fmt name v = some false) :
    SemanticReleaseWorkflow.findAvailableVersion tags fmt name (fuel + 1) v = some v := by
  rw [SemanticReleaseWorkflow.findAvailableVersion, h]

theorem findAvailableVersion_taken (tags : List String) (fmt name : String) (fuel : Nat)
    (v v2 : String) (h : SemanticReleaseWorkflow.tag_exists tags fmt name v = some true)
    (h2 : SemanticReleaseWorkflow.bump_version v "patch" = Except.ok v2) :
    SemanticReleaseWorkflow.findAvailableVersion tags fmt name (fuel + 1) v
      = SemanticReleaseWorkflow.findAvailableVersion tags fmt name fuel v2 := by
  rw [SemanticReleaseWorkflow.findAvailableVersion, h, h2]

/-! ### Claim theorems: version arithmetic (C5, C10) -/

/-- C5: for every version string that parses as three dot-separated
non-negative integers, `_bump_version` with kind `major` increments the
major component and resets minor and patch to 0; `minor` increments minor,
resets patch to 0 and leaves major unchanged; `patch` increments only the
patch component; and any bump kind other than the three known strings
(including Python `None`, which compares unequal to all of them) returns
the version unchanged.  The conclusions are equations of a pure function,
so the result is deterministic. -/
theorem c5_bump_arithmetic (v : String) (a b c : Int)
    (hparse : parseThree v = some (a, b, c))
    (_ha : 0 ≤ a) (_hb : 0 ≤ b) (_hc : 0 ≤ c) :
    SemanticReleaseWorkflow.bump_version v "major" = .ok (renderVerI (a + 1) 0 0) ∧
    SemanticReleaseWorkflow.bump_version v "minor" = .ok (renderVerI a (b + 1) 0) ∧
    SemanticReleaseWorkflow.bump_version v "patch" = .ok (renderVerI a b (c + 1)) ∧
    ∀ bt : String, bt ≠ "major" → bt ≠ "minor" → bt ≠ "patch" →
      SemanticReleaseWorkflow.bump_version v bt = .ok v := by
  refine ⟨?_, ?_, ?_, ?_⟩
  · rw [SemanticReleaseWorkflow.bump_version, hparse]; rfl
  · rw [SemanticReleaseWorkflow.bump_version, hparse]; rfl
  · rw [SemanticReleaseWorkflow.bump_version, hparse]; rfl
  · intro bt h1 h2 h3
    rw [SemanticReleaseWorkflow.bump_version, hparse]
    show (if bt = "major" then Except.ok (renderVerI (a + 1) 0 0)
      else if bt = "minor" then Except.ok (renderVerI a (b + 1) 0)
      else if bt = "patch" then Except.ok (renderVerI a b (c + 1))
      else Except.ok v) = Except.ok v
    rw [if_neg h1, if_neg h2, if_neg h3]

/-- C5 witness: the theorem applied at the concrete version `"1.2.3"`. -/
theorem c5_bump_arithmetic_witness :
    SemanticReleaseWorkflow.bump_version "1.2.3" "major" = .ok "2.0.0" ∧
    SemanticReleaseWorkflow.bump_version "1.2.3" "minor" = .ok "1.3.0" ∧
    SemanticReleaseWorkflow.bump_version "1.2.3" "patch" = .ok "1.2.4" ∧
    SemanticReleaseWorkflow.bump_version "1.2.3" "none" = .ok "1.2.3" := by
  obtain ⟨h1, h2, h3, h4⟩ :=
    c5_bump_arithmetic "1.2.3" 1 2 3 (by decide) (by decide) (by decide) (by decide)
  refine ⟨?_, ?_, ?_, ?_⟩
  · rw [h1]; rfl
  · rw [h2]; rfl
  · rw [h3]; rfl
  · rw [h4 "none" (by decide) (by decide) (by decide)]

/-- C10: the two `_bump_version` iterations (in
`semantic_release_workflow.py` and `bump.py`) compute the same function:
equal results on every input pair, and in particular they raise
`ValueError` on exactly the same malformed inputs (the error case of the
shared result type). -/
theorem c10_bump_version_duplicated (current_version bump_type : String) :
    SemanticReleaseWorkflow.bump_version current_version bump_type
      = BumpScript.bump_version current_version bump_type := rfl

/-! ### Claim theorems: tag resolution (C2, C4) -/

/-- C2: starting from candidate `a.b.c`, the `while tag_exists` loop of
`update_package_versions` returns the candidate unchanged when its tag
(the tag-format template with `{name}` and `{version}` substituted) does
not exist (the case `k = 0`), and otherwise patch-bumps repeatedly,
returning the first version `a.b.(c+k)` of the patch chain whose tag does
not exist.  `fuel > k` iterations of the unbounded source loop suffice and
the result does not depend on the remaining fuel. -/
theorem c2_tag_resolution (tags : List String) (fmt name : String) (a b c k fuel : Nat)
    (hfree : SemanticReleaseWorkflow.tag_exists tags fmt name (renderN a b (c + k))
      = some false)
    (htaken : ∀ i, i < k →
      SemanticReleaseWorkflow.tag_exists tags fmt name (renderN a b (c + i)) = some true)
    (hfuel : k < fuel) :
    SemanticReleaseWorkflow.findAvailableVersion tags fmt name fuel (renderN a b c)
      = some (renderN a b (c + k)) := by
  induction k generalizing c fuel with
  | zero =>
    match fuel, hfuel with
    | fuel + 1, _ =>
      rw [Nat.add_zero] at hfree ⊢
      exact findAvailableVersion_free tags fmt name fuel _ hfree
  | succ k ih =>
    match fuel, hfuel with
    | fuel + 1, hfuel =>
      have h0 := htaken 0 (Nat.succ_pos k)
      rw [Nat.add_zero] at h0
      rw [findAvailableVersion_taken tags fmt name fuel _ _ h0 (bump_patch_renderN a b c)]
      have hfree2 : SemanticReleaseWorkflow.tag_exists tags fmt name
          (renderN a b ((c + 1) + k)) = some false := by
        have he : (c + 1) + k = c + (k + 1) := by omega
        rw [he]; exact hfree
      have htaken2 : ∀ i, i < k →
          SemanticReleaseWorkflow.tag_exists tags fmt name (renderN a b ((c + 1) + i))
            = some true := by
        intro i hi
        have he : (c + 1) + i = c + (i + 1) := by omega
        rw [he]; exact htaken (i + 1) (by omega)
      have hres := ih (c + 1) fuel hfree2 htaken2 (by omega)
      rw [hres]
      have he : (c + 1) + k = c + (k + 1) := by omega
      rw [he]

/-- C2 witness: candidate `"1.0.0"` with `v1.0.0` tagged and `v1.0.1` free
resolves to `"1.0.1"`. -/
theorem c2_tag_resolution_witness :
    SemanticReleaseWorkflow.findAvailableVersion ["v1.0.0"] "v\x7bversion\x7d" "pkg" 2 "1.0.0"
      = some "1.0.1" := by
  have h := c2_tag_resolution ["v1.0.0"] "v\x7bversion\x7d" "pkg" 1 0 0 1 2 (by decide)
    (fun i hi => by
      have hz : i = 0 := by omega
      subst hz
      decide)
    (by omega)
  exact h

/-- C4 helper: with the degenerate tag format `"x"` (no `{version}` field)
and the tag `"x"` existing, every version of the patch chain maps to the
same existing tag, so no amount of fuel makes the loop finish. -/
theorem c4_chain (name : String) : ∀ (fuel c : Nat),
    SemanticReleaseWorkflow.findAvailableVersion ["x"] "x" name fuel (renderN 1 0 c)
      = none := by
  intro fuel
  induction fuel with
  | zero => intro c; rfl
  | succ fuel ih =>
    intro c
    have hx : SemanticReleaseWorkflow.tag_exists ["x"] "x" name (renderN 1 0 c)
        = some true := by
      rw [SemanticReleaseWorkflow.tag_exists, semverCanon_renderN]
      rfl
    rw [findAvailableVersion_taken ["x"] "x" name fuel _ _ hx (bump_patch_renderN 1 0 c)]
    exact ih (c + 1)

/-- C4: the `while tag_exists` retry loop has no iteration cap and no
`TagResolutionExhausted` failure: when every candidate tag already exists
(here: tag format `"x"` without a version placeholder, so every candidate
maps to the existing tag `"x"`), the loop never terminates — for every
fuel bound the model returns the fuel-exhaustion marker rather than a
result or a distinguished error. -/
theorem c4_unbounded_tag_loop : ∀ fuel : Nat,
    SemanticReleaseWorkflow.findAvailableVersion ["x"] "x" "pkg" fuel "1.0.0" = none := by
  intro fuel
  have h := c4_chain "pkg" fuel 0
  rwa [show renderN 1 0 0 = "1.0.0" from rfl] at h

/-! ### Lemmas about the classifier's lower-casing -/

theorem pyLowerChar_idem (c : Char) : pyLowerChar (pyLowerChar c) = pyLowerChar c := by
  by_cases h : 65 ≤ c.toNat ∧ c.toNat ≤ 90
  · have hc : pyLowerChar c = Char.ofNat (c.toNat + 32) := by rw [pyLowerChar, if_pos h]
    rw [hc]
    obtain ⟨h1, h2⟩ := h
    revert h1 h2
    generalize c.toNat = n
    intro h1 h2
    interval_cases n <;> decide
  · have hc : pyLowerChar c = c := by rw [pyLowerChar, if_neg h]
    rw [hc]
    exact hc

theorem pyLowerL_fixed (l : List Char) (h : ∀ c ∈ l, pyLowerChar c = c) :
    pyLowerL l = l := by
  induction l with
  | nil => rfl
  | cons c t ih =>
    rw [pyLowerL, List.map_cons, h c (by simp)]
    have := ih (fun d hd => h d (by simp [hd]))
    rw [pyLowerL] at this
    rw [this]

theorem mem_normalizeMsg_lower_fixed (m : String) (c : Char)
    (hc : c ∈ SemanticReleaseWorkflow.normalizeMsg m) : pyLowerChar c = c := by
  rw [SemanticReleaseWorkflow.normalizeMsg, pyLowerL] at hc
  obtain ⟨c0, _, rfl⟩ := List.mem_map.mp hc
  exact pyLowerChar_idem c0

/-- The captured group of a successful header match consists of characters
of the normalised (already lower-cased) message, so the classifier's second
`.lower()` leaves it unchanged. -/
theorem reMatchHeader_lower_fixed (m : String) (t : List Char)
    (h : SemanticReleaseWorkflow.reMatchHeader
        (SemanticReleaseWorkflow.firstLineL (SemanticReleaseWorkflow.normalizeMsg m))
      = some t) :
    pyLowerL t = t := by
  simp only [SemanticReleaseWorkflow.reMatchHeader] at h
  split_ifs at h with h1 h2
  have ht : t = List.takeWhile SemanticReleaseWorkflow.isWordChar
      (SemanticReleaseWorkflow.firstLineL (SemanticReleaseWorkflow.normalizeMsg m)) :=
    (Option.some.inj h).symm
  refine pyLowerL_fixed t (fun c hc => ?_)
  refine mem_normalizeMsg_lower_fixed m c ?_
  have h1 : c ∈ SemanticReleaseWorkflow.firstLineL (SemanticReleaseWorkflow.normalizeMsg m) := by
    have hsub := List.takeWhile_sublist
      (l := SemanticReleaseWorkflow.firstLineL (SemanticReleaseWorkflow.normalizeMsg m))
      (p := SemanticReleaseWorkflow.isWordChar)
    exact hsub.subset (ht ▸ hc)
  have hsub2 := List.takeWhile_sublist
    (l := SemanticReleaseWorkflow.normalizeMsg m) (p := fun c => c ≠ '\n')
  rw [SemanticReleaseWorkflow.firstLineL] at h1
  exact hsub2.subset h1

/-! ### Claim theorems: commit classification (C1, C6) -/

/-- C1 counterexample: `classify("random text")` returns `some "patch"`,
not a no-mapping result, even though the normalised message does not
contain `"breaking change"` and its first line does not match the
conventional-commit header regex. -/
theorem c1_counterexample :
    SemanticReleaseWorkflow.parse_conventional_commit "random text" = some "patch" ∧
    containsSub (SemanticReleaseWorkflow.normalizeMsg "random text")
      "breaking change".data = false ∧
    SemanticReleaseWorkflow.reMatchHeader (SemanticReleaseWorkflow.firstLineL
      (SemanticReleaseWorkflow.normalizeMsg "random text")) = none := by
  refine ⟨rfl, rfl, rfl⟩

/-- C1 (amended): for every message whose normalised text does not contain
`"breaking change"` and whose first line does not match the header regex,
the classifier returns `some "patch"` when the normalised message is
nonempty and no mapping (`none`) only when it is empty — so an empty or
whitespace-only message yields no mapping, but any other unmatched message
classifies as `patch`, not as "none". -/
theorem c1_unmatched_classification (m : String)
    (hnb : containsSub (SemanticReleaseWorkflow.normalizeMsg m) "breaking change".data
      = false)
    (hnm : SemanticReleaseWorkflow.reMatchHeader
        (SemanticReleaseWorkflow.firstLineL (SemanticReleaseWorkflow.normalizeMsg m))
      = none) :
    SemanticReleaseWorkflow.parse_conventional_commit m
      = if (SemanticReleaseWorkflow.normalizeMsg m).isEmpty then none else some "patch" := by
  rw [SemanticReleaseWorkflow.parse_conventional_commit, if_neg (by simp [hnb]), hnm]

/-- C1 witness: the amended theorem applied to the whitespace-only message
`"  "`, whose normalisation is empty, giving no mapping. -/
theorem c1_unmatched_classification_witness :
    SemanticReleaseWorkflow.parse_conventional_commit "  " = none := by
  have h := c1_unmatched_classification "  " (by decide) (by decide)
  rw [h]
  decide

/-- C6: if the normalised message contains the substring
`"breaking change"` anywhere (the check is global, not line-anchored), the
classifier returns `major`, overriding the header mapping; otherwise, when
the first line matches the header regex with captured type token `t`, the
classifier returns `minor` for `feat`, `patch` for `fix`, and `patch` for
every other token. -/
theorem c6_classifier_mapping (m : String) :
    (containsSub (SemanticReleaseWorkflow.normalizeMsg m) "breaking change".data = true →
      SemanticReleaseWorkflow.parse_conventional_commit m = some "major") ∧
    (containsSub (SemanticReleaseWorkflow.normalizeMsg m) "breaking change".data = false →
      ∀ t, SemanticReleaseWorkflow.reMatchHeader
          (SemanticReleaseWorkflow.firstLineL (SemanticReleaseWorkflow.normalizeMsg m))
        = some t →
        SemanticReleaseWorkflow.parse_conventional_commit m
          = if t = "feat".data then some "minor"
            else if t = "fix".data then some "patch" else some "patch") := by
  constructor
  · intro hb
    rw [SemanticReleaseWorkflow.parse_conventional_commit, if_pos hb]
  · intro hnb t ht
    rw [SemanticReleaseWorkflow.parse_conventional_commit, if_neg (by simp [hnb]), ht]
    show SemanticReleaseWorkflow.typeBumpMapGet (pyLowerL t) = _
    rw [reMatchHeader_lower_fixed m t ht, SemanticReleaseWorkflow.typeBumpMapGet]

/-- C6 witness: the theorem applied to a breaking-change message and to a
`feat` message. -/
theorem c6_classifier_mapping_witness :
    SemanticReleaseWorkflow.parse_conventional_commit "feat: x\n\nBREAKING CHANGE: y"
      = some "major" ∧
    SemanticReleaseWorkflow.parse_conventional_commit "feat: x" = some "minor" := by
  constructor
  · exact (c6_classifier_mapping "feat: x\n\nBREAKING CHANGE: y").1 (by decide)
  · have h := (c6_classifier_mapping "feat: x").2 (by decide) "feat".data (by decide)
    rw [h]
    decide

open SemanticReleaseWorkflow

/-! ### Lemmas for bump resolution (C7) -/

theorem parse_conventional_commit_range (m b : String)
    (h : parse_conventional_commit m = some b) :
    b = "major" ∨ b = "minor" ∨ b = "patch" := by
  rw [parse_conventional_commit] at h
  by_cases h1 : containsSub (normalizeMsg m) "breaking change".data = true
  · rw [if_pos h1] at h
    exact Or.inl (Option.some.inj h).symm
  · rw [if_neg h1] at h
    rcases hm : reMatchHeader (firstLineL (normalizeMsg m)) with _ | w
    · simp only [hm] at h
      by_cases h2 : (normalizeMsg m).isEmpty = true
      · rw [if_pos h2] at h
        exact Option.noConfusion h
      · rw [if_neg h2] at h
        exact Or.inr (Or.inr (Option.some.inj h).symm)
    · simp only [hm] at h
      rw [typeBumpMapGet] at h
      by_cases hf : pyLowerL w = "feat".data
      · rw [if_pos hf] at h
        exact Or.inr (Or.inl (Option.some.inj h).symm)
      · rw [if_neg hf] at h
        by_cases hx : pyLowerL w = "fix".data
        · rw [if_pos hx] at h
          exact Or.inr (Or.inr (Option.some.inj h).symm)
        · rw [if_neg hx] at h
          exact Or.inr (Or.inr (Option.some.inj h).symm)

theorem mem_filterMap_parse_prio (l : List String) (b : String)
    (hb : b ∈ l.filterMap parse_conventional_commit) :
    1 ≤ bumpPriority (some b) := by
  obtain ⟨m, _, hm⟩ := List.mem_filterMap.mp hb
  rcases parse_conventional_commit_range m b hm with rfl | rfl | rfl <;> decide

theorem bump_range_prio_inj (b1 b2 : String)
    (h1 : b1 = "major" ∨ b1 = "minor" ∨ b1 = "patch")
    (h2 : b2 = "major" ∨ b2 = "minor" ∨ b2 = "patch")
    (hp : bumpPriority (some b1) = bumpPriority (some b2)) : b1 = b2 := by
  rcases h1 with rfl | rfl | rfl <;> rcases h2 with rfl | rfl | rfl <;>
    first
      | rfl
      | exact absurd hp (by decide)

theorem bumpFoldStep_le (h0 : Option String) (c : String) :
    bumpPriority h0 ≤ bumpPriority (bumpFoldStep h0 c) := by
  rw [bumpFoldStep]
  rcases hp : parse_conventional_commit c with _ | cb
  · exact le_refl _
  · show bumpPriority h0 ≤ bumpPriority
      (if bumpPriority (some cb) > bumpPriority h0 then some cb else h0)
    by_cases hgt : bumpPriority (some cb) > bumpPriority h0
    · rw [if_pos hgt]; omega
    · rw [if_neg hgt]

theorem bumpFold_le (l : List String) : ∀ h0 : Option String,
    bumpPriority h0 ≤ bumpPriority (l.foldl bumpFoldStep h0) := by
  induction l with
  | nil => intro h0; exact le_refl _
  | cons c t ih =>
    intro h0
    rw [List.foldl_cons]
    exact le_trans (bumpFoldStep_le h0 c) (ih _)

theorem bumpFold_ub (l : List String) : ∀ (h0 : Option String) (b : String),
    b ∈ l.filterMap parse_conventional_commit →
    bumpPriority (some b) ≤ bumpPriority (l.foldl bumpFoldStep h0) := by
  induction l with
  | nil => intro h0 b hb; simp at hb
  | cons c t ih =>
    intro h0 b hb
    rw [List.foldl_cons]
    rcases hp : parse_conventional_commit c with _ | cb
    · simp only [List.filterMap_cons, hp] at hb
      exact ih _ b hb
    · simp only [List.filterMap_cons, hp] at hb
      rcases List.mem_cons.mp hb with rfl | hb2
      · refine le_trans ?_ (bumpFold_le t (bumpFoldStep h0 c))
        have hstep : bumpFoldStep h0 c
            = if bumpPriority (some b) > bumpPriority h0 then some b else h0 := by
          rw [bumpFoldStep, hp]
        rw [hstep]
        by_cases hgt : bumpPriority (some b) > bumpPriority h0
        · rw [if_pos hgt]
        · rw [if_neg hgt]; omega
      · exact ih _ b hb2

theorem bumpFold_cases (l : List String) : ∀ h0 : Option String,
    l.foldl bumpFoldStep h0 = h0 ∨
      ∃ b, b ∈ l.filterMap parse_conventional_commit ∧
        l.foldl bumpFoldStep h0 = some b := by
  induction l with
  | nil => intro h0; exact Or.inl rfl
  | cons c t ih =>
    intro h0
    rw [List.foldl_cons]
    rcases hp : parse_conventional_commit c with _ | cb
    · have hstep : bumpFoldStep h0 c = h0 := by rw [bumpFoldStep, hp]
      rw [hstep]
      rcases ih h0 with h | ⟨b, hb, he⟩
      · exact Or.inl h
      · exact Or.inr ⟨b, by simp only [List.filterMap_cons, hp]; exact hb, he⟩
    · have hstep : bumpFoldStep h0 c = h0 ∨ bumpFoldStep h0 c = some cb := by
        have hs : bumpFoldStep h0 c
            = if bumpPriority (some cb) > bumpPriority h0 then some cb else h0 := by
          rw [bumpFoldStep, hp]
        rw [hs]
        by_cases hgt : bumpPriority (some cb) > bumpPriority h0
        · exact Or.inr (by rw [if_pos hgt])
        · exact Or.inl (by rw [if_neg hgt])
      rcases ih (bumpFoldStep h0 c) with h | ⟨b, hb, he⟩
      · rcases hstep with h1 | h1
        · exact Or.inl (by rw [h, h1])
        · exact Or.inr ⟨cb,
            by simp only [List.filterMap_cons, hp]; exact List.mem_cons_self _ _,
            by rw [h, h1]⟩
      · exact Or.inr ⟨b,
          by simp only [List.filterMap_cons, hp]; exact List.mem_cons_of_mem _ hb, he⟩

theorem determine_none_iff (commits : List String) :
    determine_package_bump commits = none ↔
      commits.filterMap parse_conventional_commit = [] := by
  rcases commits with _ | ⟨c, t⟩
  · simp [determine_package_bump]
  · rw [determine_package_bump, if_neg (by simp)]
    constructor
    · intro h
      by_contra hne
      obtain ⟨b, hb⟩ := List.exists_mem_of_ne_nil _ hne
      have h1 := bumpFold_ub (c :: t) none b hb
      rw [h] at h1
      have h2 := mem_filterMap_parse_prio (c :: t) b hb
      have h3 : bumpPriority none = 0 := rfl
      omega
    · intro h
      rcases bumpFold_cases (c :: t) none with h1 | ⟨b, hb, _⟩
      · exact h1
      · rw [h] at hb
        simp at hb

theorem determine_some_spec (commits : List String) (b : String)
    (h : determine_package_bump commits = some b) :
    b ∈ commits.filterMap parse_conventional_commit ∧
      ∀ b2 ∈ commits.filterMap parse_conventional_commit,
        bumpPriority (some b2) ≤ bumpPriority (some b) := by
  rcases commits with _ | ⟨c, t⟩
  · rw [determine_package_bump] at h
    simp at h
  · rw [determine_package_bump, if_neg (by simp)] at h
    rcases bumpFold_cases (c :: t) none with h1 | ⟨b1, hb1, he1⟩
    · rw [h1] at h
      exact Option.noConfusion h
    · rw [he1] at h
      obtain rfl : b1 = b := Option.some.inj h
      refine ⟨hb1, fun b2 hb2 => ?_⟩
      have hub := bumpFold_ub (c :: t) none b2 hb2
      rwa [he1] at hub

/-! ### Claim theorem: bump resolution (C7) -/

/-- C7: `determine_package_bump` returns `none` exactly when no commit of
the list classifies (in particular on the empty list) — a signal
distinguishable by type from every `some` result — and otherwise returns a
classification of maximal priority among the classified commits under
`major > minor > patch`; consequently the result is invariant under
permutation of the commit list, and unclassified commits are ignored
(only the `filterMap` of classifications matters). -/
theorem c7_bump_resolution (commits : List String) :
    (determine_package_bump commits = none ↔
      commits.filterMap parse_conventional_commit = []) ∧
    (∀ b, determine_package_bump commits = some b →
      b ∈ commits.filterMap parse_conventional_commit ∧
        ∀ b2 ∈ commits.filterMap parse_conventional_commit,
          bumpPriority (some b2) ≤ bumpPriority (some b)) ∧
    (∀ commits2, commits.Perm commits2 →
      determine_package_bump commits = determine_package_bump commits2) := by
  refine ⟨determine_none_iff commits, fun b h => determine_some_spec commits b h, ?_⟩
  intro commits2 hperm
  have hfm : (commits.filterMap parse_conventional_commit).Perm
      (commits2.filterMap parse_conventional_commit) := hperm.filterMap _
  rcases hd : determine_package_bump commits with _ | b
  · have h1 : commits.filterMap parse_conventional_commit = [] :=
      (determine_none_iff commits).mp hd
    have h2 : commits2.filterMap parse_conventional_commit = [] := by
      rw [h1] at hfm
      exact hfm.symm.eq_nil
    exact ((determine_none_iff commits2).mpr h2).symm
  · obtain ⟨hmem, hub⟩ := determine_some_spec commits b hd
    rcases hd2 : determine_package_bump commits2 with _ | b2
    · have h2 := (determine_none_iff commits2).mp hd2
      rw [h2] at hfm
      have h3 : commits.filterMap parse_conventional_commit = [] := hfm.eq_nil
      rw [h3] at hmem
      simp at hmem
    · obtain ⟨hmem2, hub2⟩ := determine_some_spec commits2 b2 hd2
      have hb_in2 : b ∈ commits2.filterMap parse_conventional_commit := hfm.mem_iff.mp hmem
      have hb2_in1 : b2 ∈ commits.filterMap parse_conventional_commit :=
        hfm.mem_iff.mpr hmem2
      have hpe : bumpPriority (some b) = bumpPriority (some b2) :=
        le_antisymm (hub2 b hb_in2) (hub b2 hb2_in1)
      obtain ⟨m1, _, hpm1⟩ := List.mem_filterMap.mp hmem
      obtain ⟨m2, _, hpm2⟩ := List.mem_filterMap.mp hmem2
      have hbe := bump_range_prio_inj b b2 (parse_conventional_commit_range m1 b hpm1)
        (parse_conventional_commit_range m2 b2 hpm2) hpe
      rw [hbe]

/-- C7 witness: the theorem applied to the concrete lists of the spec's
examples — order independence of `["fix: a", "feat: b"]`, the empty list
resolving to no-bump, and the maximal severity being `minor`. -/
theorem c7_bump_resolution_witness :
    determine_package_bump ["fix: a", "feat: b"]
      = determine_package_bump ["feat: b", "fix: a"] ∧
    determine_package_bump ([] : List String) = none ∧
    determine_package_bump ["fix: a", "feat: b"] = some "minor" := by
  refine ⟨(c7_bump_resolution ["fix: a", "feat: b"]).2.2 ["feat: b", "fix: a"]
    (List.Perm.swap "feat: b" "fix: a" []), ?_, by decide⟩
  exact (c7_bump_resolution []).1.mpr (by decide)

/-! ### Claim theorems: package discovery (C8) and exit code (C9) -/

/-- C8 counterexample: a manifest with a name and a tag-format template but
no version field is rejected by `_validate_pyproject` (which lists
`project.version` among its required fields), so the package is skipped —
it is not discovered with the `"0.0.0"` default as the claim states. -/
theorem c8_counterexample :
    discoverPackageEntry ⟨some "pkg", none, some "v\x7bversion\x7d"⟩ = none := rfl

/-- C8 (amended): a manifest whose version field is absent (or empty) is a
single-package discovery error exactly like a missing name or missing
tag-format: `_validate_pyproject` requires all three, so the entry is
skipped; consequently the `"0.0.0"` default on the discovery line is dead —
every discovered package carries the (nonempty) version actually present
in its manifest. -/
theorem c8_discovery_requires_version (d : PyProject) :
    (discoverPackageEntry d = none ↔ validate_pyproject d = false) ∧
    (∀ p, discoverPackageEntry d = some p →
      ∃ s, d.version = some s ∧ s.isEmpty = false ∧ p.current_version = s) := by
  constructor
  · by_cases hv : validate_pyproject d = true
    · rw [discoverPackageEntry, if_pos hv]
      simp [hv]
    · rw [discoverPackageEntry, if_neg hv]
      simp only [Bool.not_eq_true] at hv
      simp [hv]
  · intro p hp
    rw [discoverPackageEntry] at hp
    by_cases hv : validate_pyproject d = true
    · rw [if_pos hv] at hp
      have hver : truthyStr d.version = true := by
        rw [validate_pyproject] at hv
        simp only [Bool.and_eq_true] at hv
        exact hv.1.2
      rcases hd : d.version with _ | s
      · rw [validate_pyproject] at hv
        rw [hd] at hver
        exact absurd hver (by decide)
      · refine ⟨s, rfl, ?_, ?_⟩
        · rw [hd] at hver
          rw [truthyStr] at hver
          simpa using hver
        · have := Option.some.inj hp
          rw [← this, hd]
          rfl
    · rw [if_neg hv] at hp
      exact Option.noConfusion hp

/-- C8 witness: a manifest missing only the name field is likewise skipped,
via the amended theorem. -/
theorem c8_discovery_requires_version_witness :
    discoverPackageEntry ⟨none, some "1.0.0", some "v\x7bversion\x7d"⟩ = none :=
  (c8_discovery_requires_version ⟨none, some "1.0.0", some "v\x7bversion\x7d"⟩).1.mpr
    (by decide)

/-- C9 counterexample: with correct argument count and an existing
repository root, a manifest list on which discovery fails entirely (the
single manifest has no version, so `_discover_packages` raises
`No valid packages`) still produces exit code 0, because `__init__`
swallows the discovery error and falls back to an empty package dict — the
claim's "non-zero if discovery fails entirely" is false on the code. -/
theorem c9_counterexample :
    discover_packages [⟨some "pkg", none, some "v\x7bversion\x7d"⟩]
        = .error "No valid packages discovered in the repository" ∧
    mainExitCode 3 true [⟨some "pkg", none, some "v\x7bversion\x7d"⟩] = 0 :=
  ⟨rfl, rfl⟩

/-- C9 (amended): the process exit code is 0 exactly when the argument
count is right and the repository root exists — discovery failure is
swallowed by `__init__` (empty package dict) and per-package failures are
swallowed inside `update_package_versions`, so neither makes the exit code
non-zero; exit 1 happens only for a wrong argument count or for the
`FileNotFoundError` raised before discovery. -/
theorem c9_exit_code (argc : Nat) (repo_root_exists : Bool)
    (manifests : List PyProject) :
    mainExitCode argc repo_root_exists manifests = 0 ↔
      argc = 3 ∧ repo_root_exists = true := by
  by_cases ha : argc = 3
  · subst ha
    cases repo_root_exists
    · simp [mainExitCode, managerInit]
    · simp [mainExitCode, managerInit]
  · simp [mainExitCode, ha]

/-! ### The idempotence scenario (C3) -/

/-- Commit-log collaborator for the idempotence scenario: the same revision
range yields the same single `fix` commit for the package on both runs (no
new commits are made between runs — the first run only writes a manifest
and creates a tag). -/
def exampleCommits : String → List String :=
  fun p => if p = "test_package" then ["fix: bug"] else []

/-- The single discovered package of the idempotence scenario. -/
def examplePkg : Pkg :=
  ⟨"test_package", "test_package", "test_package", "v\x7bversion\x7d"⟩

theorem update_package_versions_nil (fuel : Nat) (commits : String → List String)
    (st : RepoState) : update_package_versions fuel commits st [] = (st, []) := rfl

theorem update_package_versions_cons (fuel : Nat) (commits : String → List String)
    (st : RepoState) (p : Pkg) (rest : List Pkg) :
    update_package_versions fuel commits st (p :: rest)
      = (match (processPackage fuel commits st p).2 with
         | some res =>
           ((update_package_versions fuel commits (processPackage fuel commits st p).1 rest).1,
            (p.key, res)
              :: (update_package_versions fuel commits
                   (processPackage fuel commits st p).1 rest).2)
         | none =>
           ((update_package_versions fuel commits (processPackage fuel commits st p).1 rest).1,
            (update_package_versions fuel commits
              (processPackage fuel commits st p).1 rest).2)) := by
  rw [update_package_versions]

theorem string_data_injective (s t : String) (h : s.data = t.data) : s = t := by
  cases s
  cases t
  exact congrArg String.mk h

/-- The scenario's tag-format template substitutes to `"v" ++ version`. -/
theorem formatTemplate_vversion (name v : String) :
    formatTemplate "v\x7bversion\x7d" name v = "v" ++ v := by
  have h1 : formatTemplate "v\x7bversion\x7d" name v = ⟨'v' :: (v.data ++ [])⟩ := rfl
  have h2 : ("v" ++ v : String) = ⟨'v' :: v.data⟩ := rfl
  rw [h1, h2, List.append_nil]

theorem renderN_inj_patch (a b k1 k2 : Nat) (he : renderN a b k1 = renderN a b k2) :
    k1 = k2 := by
  have h1 : parseThree (renderN a b k1) = parseThree (renderN a b k2) := by rw [he]
  rw [parseThree_renderN, parseThree_renderN] at h1
  have h2 := Option.some.inj h1
  have h3 : (k1 : Int) = (k2 : Int) := congrArg (fun t => t.2.2) h2
  exact_mod_cast h3

/-- One run of the orchestrator loop body on the scenario package, from a
state whose stored version is `a.b.c` and whose tag for `a.b.(c+1)` is
free: the package is bumped to `a.b.(c+1)`, the manifest updated, the tag
appended, and the release recorded. -/
theorem processPackage_example (fuelm : Nat) (tags : List String) (a b c : Nat)
    (hfree : tag_exists tags "v\x7bversion\x7d" "test_package" (renderN a b (c + 1))
      = some false) :
    processPackage (fuelm + 1) exampleCommits
        ⟨[("test_package", renderN a b c)], tags⟩ examplePkg
      = (⟨[("test_package", renderN a b (c + 1))],
          tags ++ [formatTemplate "v\x7bversion\x7d" "test_package" (renderN a b (c + 1))]⟩,
         some ⟨renderN a b c, renderN a b (c + 1), "patch"⟩) := by
  have hmem : formatTemplate "v\x7bversion\x7d" "test_package" (renderN a b (c + 1)) ∉ tags := by
    rw [tag_exists, semverCanon_renderN] at hfree
    have h1 := Option.some.inj hfree
    exact of_decide_eq_false h1
  have hcommits : exampleCommits "test_package" = ["fix: bug"] := rfl
  have hdet : determine_package_bump ["fix: bug"] = some "patch" := by decide
  have hlook : lookupAssoc [("test_package", renderN a b c)] "test_package"
      = some (renderN a b c) := by
    rw [lookupAssoc, if_pos rfl]
  have hset : setAssoc [("test_package", renderN a b c)] "test_package" (renderN a b (c + 1))
      = [("test_package", renderN a b (c + 1))] := by
    rw [setAssoc, if_pos rfl]
  have hfind := findAvailableVersion_free tags "v\x7bversion\x7d" "test_package" fuelm
    (renderN a b (c + 1)) hfree
  simp only [processPackage, examplePkg, hcommits, hdet, hlook, Option.getD_some,
    bump_patch_renderN, hfind, hmem, if_false, hset]

/-! ### Claim theorems: second-run behaviour (C3) -/

/-- C3 counterexample: in the scenario of the repository's own test
(package at `1.0.0`, tag format `v{version}`, one `fix` commit in the
range), a second orchestrator run over the same revision range with no new
commits and the first run's tag `v1.0.1` existing does NOT skip the
package: it produces a non-empty result set, releasing `1.0.2`. -/
theorem c3_counterexample :
    (update_package_versions 10 exampleCommits
        (update_package_versions 10 exampleCommits
          ⟨[("test_package", "1.0.0")], []⟩ [examplePkg]).1 [examplePkg]).2
      = [("test_package", ⟨"1.0.1", "1.0.2", "patch"⟩)] := by decide

/-- C3 (amended): re-running the orchestrator with the same revision range
and no new commits does not skip a package whose commit range still
classifies: the same bump is re-derived, applied to the version the first
run wrote to the manifest, and resolved to a fresh untagged version — the
first run releases `a.b.(c+1)` and the second run releases `a.b.(c+2)`
(non-empty result both times).  A package is skipped only when its commit
list yields no classification. -/
theorem c3_second_run_rereleases (a b c : Nat) :
    (update_package_versions 10 exampleCommits
        ⟨[("test_package", renderN a b c)], []⟩ [examplePkg]).2
      = [("test_package", ⟨renderN a b c, renderN a b (c + 1), "patch"⟩)] ∧
    (update_package_versions 10 exampleCommits
        (update_package_versions 10 exampleCommits
          ⟨[("test_package", renderN a b c)], []⟩ [examplePkg]).1 [examplePkg]).2
      = [("test_package", ⟨renderN a b (c + 1), renderN a b (c + 2), "patch"⟩)] := by
  have hfree1 : tag_exists [] "v\x7bversion\x7d" "test_package" (renderN a b (c + 1))
      = some false := by
    rw [tag_exists, semverCanon_renderN]
    rfl
  have hp1 := processPackage_example 9 [] a b c hfree1
  have hrun1 : update_package_versions 10 exampleCommits
      ⟨[("test_package", renderN a b c)], []⟩ [examplePkg]
    = (⟨[("test_package", renderN a b (c + 1))],
        [] ++ [formatTemplate "v\x7bversion\x7d" "test_package" (renderN a b (c + 1))]⟩,
       [("test_package", ⟨renderN a b c, renderN a b (c + 1), "patch"⟩)]) := by
    rw [update_package_versions_cons, hp1]
    rfl
  have hfree2 : tag_exists
      [formatTemplate "v\x7bversion\x7d" "test_package" (renderN a b (c + 1))]
      "v\x7bversion\x7d" "test_package" (renderN a b ((c + 1) + 1)) = some false := by
    rw [tag_exists, semverCanon_renderN]
    have hne : formatTemplate "v\x7bversion\x7d" "test_package" (renderN a b ((c + 1) + 1))
        ≠ formatTemplate "v\x7bversion\x7d" "test_package" (renderN a b (c + 1)) := by
      rw [formatTemplate_vversion, formatTemplate_vversion]
      intro he
      have hd := congrArg String.data he
      rw [string_data_append, string_data_append] at hd
      have hd2 : (renderN a b ((c + 1) + 1)).data = (renderN a b (c + 1)).data :=
        List.append_cancel_left hd
      have := renderN_inj_patch a b ((c + 1) + 1) (c + 1) (string_data_injective _ _ hd2)
      omega
    have hdec : decide (formatTemplate "v\x7bversion\x7d" "test_package"
        (renderN a b ((c + 1) + 1))
        ∈ [formatTemplate "v\x7bversion\x7d" "test_package" (renderN a b (c + 1))]) = false := by
      simp [hne]
    rw [Option.map_some', hdec]
  have hp2 := processPackage_example 9
    [formatTemplate "v\x7bversion\x7d" "test_package" (renderN a b (c + 1))] a b (c + 1) hfree2
  constructor
  · rw [hrun1]
  · rw [hrun1]
    have hnil : ([] ++ [formatTemplate "v\x7bversion\x7d" "test_package" (renderN a b (c + 1))])
        = [formatTemplate "v\x7bversion\x7d" "test_package" (renderN a b (c + 1))] :=
      List.nil_append _
    rw [hnil, update_package_versions_cons, hp2]
    have hc2 : (c + 1) + 1 = c + 2 := by omega
    rw [hc2]
    rfl

/-- C9 witness: the amended theorem applied at a concrete successful
invocation. -/
theorem c9_exit_code_witness : mainExitCode 3 true [] = 0 :=
  (c9_exit_code 3 true []).mpr ⟨rfl, rfl⟩
